import Mathlib

/-!
Verification of the langapp-backend matchmaking engine.

This file gives a shallow embedding of the Redis-backed matchmaking core
(`matchmaking/queue.go`, `matchmaking/matching.go`, the hold protocol, the
HTTP validation layer and the websocket push fabric) and proves properties
of the embedded definitions.

Modelling conventions:
- The shared state store (Redis) is a pure record `RedisState`: language
  queues (`queue:<L>` lists, head at index 0, `LPop` from the left,
  `RPush` at the right), the `users:data` hash, the `hold:<L>` sets and
  the `hold:data:<u>` hashes.  TTLs are not modelled (no claim depends on
  expiry).
- JSON serialisation is modelled by `Blob`: `jsonMarshal` always succeeds
  (the Go structs marshal without error) while `jsonUnmarshal` fails
  exactly on non-entry blobs, which models `json.Unmarshal` errors.
- Fallible external effects (pipeline `Exec`, session creation) are fault
  parameters (`Bool` flags) of the embedded functions: `true` means the
  call succeeds, `false` that it returns an error.
-/

/-- Mirrors `QueueEntry` from `matchmaking/queue.go`: user id, native and
practice language and the admission timestamp (modelled as a `Nat`). -/
structure QueueEntry where
  UserID : String
  NativeLanguage : String
  PracticeLanguage : String
  Timestamp : Nat
deriving DecidableEq, Repr

/-- A value stored in Redis: either a serialised `QueueEntry` or arbitrary
bytes that do not unmarshal to an entry. -/
inductive Blob where
  | entry (e : QueueEntry)
  | garbage (s : String)
deriving DecidableEq, Repr

/-- Models `json.Marshal` on a `QueueEntry` (never fails in the source). -/
def jsonMarshal (e : QueueEntry) : Blob := Blob.entry e

/-- Models `json.Unmarshal` into a `QueueEntry`: fails on non-entry data. -/
def jsonUnmarshal : Blob → Option QueueEntry
  | Blob.entry e => some e
  | Blob.garbage _ => none

/-- Pointwise update of a string-keyed map. -/
def updFn {α : Type} (f : String → α) (k : String) (v : α) : String → α :=
  fun k' => if k' = k then v else f k'

/-- Models Redis `SADD` on a set represented as a duplicate-free list. -/
def sadd (s : List String) (u : String) : List String :=
  if u ∈ s then s else u :: s

/-- Models Redis `SREM`. -/
def srem (s : List String) (u : String) : List String :=
  s.filter (fun v => v ≠ u)

/-- The shared state store.  `queues l` is the list at key `queue:<l>`
(front of the list = head of the queue), `usersData` the `users:data`
hash, `holdSet l` the set at `hold:<l>`, `holdData u` the single `data`
field of the hash `hold:data:<u>`, and `published` the sequence of
messages published onto the fan-out topics (topic key, payload). -/
structure RedisState where
  queues : String → List String
  usersData : String → Option Blob
  holdSet : String → List String
  holdData : String → Option Blob
  published : List (String × Blob)

/-- Error results of the hold-protocol operations, mirroring the
`fmt.Errorf` cases of `putUserOnHold` / `releaseUserFromHold` /
`restoreUserFromHold`. -/
inductive HoldError where
  | raceLost (expected got : String)
  | dataMissing (u : String)
  | unmarshalFailed (u : String)
  | pipeFailed (u : String)
deriving DecidableEq, Repr

/-- Embeds `putUserOnHold` (hold protocol): pop the head of `queue:<language>`;
on the empty queue return `(none, none)` (the Go code returns `nil, nil`);
if the popped id is not the expected `userID`, `LPush` it back and fail
`raceLost`; fetch the user's data from `users:data`, pushing the id back
and failing when it is missing or does not unmarshal; finally run the
atomic batch `SADD hold:<language> userID; HSET hold:data:<userID> data
<blob>` (`pipeOk` models whether `pipe.Exec` succeeds), pushing the id
back on batch failure.  The result pair mirrors the Go return
`(*QueueEntry, error)`. -/
def putUserOnHold (st : RedisState) (userID language : String) (pipeOk : Bool) :
    (Option QueueEntry × Option HoldError) × RedisState :=
  match st.queues language with
  | [] => ((none, none), st)
  | popped :: rest =>
    let st1 : RedisState := { st with queues := updFn st.queues language rest }
    if popped ≠ userID then
      ((none, some (HoldError.raceLost userID popped)),
        { st1 with queues := updFn st1.queues language (popped :: rest) })
    else
      match st1.usersData userID with
      | none =>
        ((none, some (HoldError.dataMissing userID)),
          { st1 with queues := updFn st1.queues language (userID :: rest) })
      | some blob =>
        match jsonUnmarshal blob with
        | none =>
          ((none, some (HoldError.unmarshalFailed userID)),
            { st1 with queues := updFn st1.queues language (userID :: rest) })
        | some entry =>
          if pipeOk then
            ((some entry, none),
              { st1 with
                holdSet := updFn st1.holdSet language (sadd (st1.holdSet language) userID),
                holdData := updFn st1.holdData userID (some blob) })
          else
            ((none, some (HoldError.pipeFailed userID)),
              { st1 with queues := updFn st1.queues language (userID :: rest) })

/-- Embeds `releaseUserFromHold` (commit path): the atomic batch
`SREM hold:<language> userID; DEL hold:data:<userID>;
HDEL users:data userID`. -/
def releaseUserFromHold (st : RedisState) (userID language : String) (pipeOk : Bool) :
    Option HoldError × RedisState :=
  if pipeOk then
    (none,
      { st with
        holdSet := updFn st.holdSet language (srem (st.holdSet language) userID),
        holdData := updFn st.holdData userID none,
        usersData := updFn st.usersData userID none })
  else (some (HoldError.pipeFailed userID), st)

/-- Embeds `restoreUserFromHold` (abort path): read `hold:data:<userID>`;
if missing, scrub the hold set and return success; if it does not
unmarshal, return an error without touching the state; otherwise run the
atomic batch `RPUSH queue:<language> userID; SREM hold:<language> userID;
DEL hold:data:<userID>`. -/
def restoreUserFromHold (st : RedisState) (userID language : String) (pipeOk : Bool) :
    Option HoldError × RedisState :=
  match st.holdData userID with
  | none =>
    (none, { st with holdSet := updFn st.holdSet language (srem (st.holdSet language) userID) })
  | some blob =>
    match jsonUnmarshal blob with
    | none => (some (HoldError.unmarshalFailed userID), st)
    | some _ =>
      if pipeOk then
        (none,
          { st with
            queues := updFn st.queues language (st.queues language ++ [userID]),
            holdSet := updFn st.holdSet language (srem (st.holdSet language) userID),
            holdData := updFn st.holdData userID none })
      else (some (HoldError.pipeFailed userID), st)

/-- A row of the external `sessions` table as created by
`sessionRepository.CreateSession(practiceUserID, nativeUserID, language)`. -/
structure SessionRow where
  practiceUserID : String
  nativeUserID : String
  language : String
deriving DecidableEq, Repr

/-- A `match_found` websocket message as handed to
`wsManager.SendMessage(recipient, message)`: the id the message is sent
to, and the `MatchNotification` payload fields used by the claims. -/
structure MatchSend where
  recipient : String
  partnerID : String
  language : String
deriving DecidableEq, Repr

/-- Embeds `initializeSession` from `matchmaking/matching.go`: create the
session (`sessionOk` models whether `CreateSession` succeeds; on failure
the function returns the error and nothing is sent), then build the two
`match_found` messages and hand them to `SendMessage`.  The two
`SendMessage` calls in the source are
`SendMessage(practiceEntry.UserID, practiceUserMessage)` and
`SendMessage(practiceEntry.UserID, nativeUserMessage)` — both use the
practice user's id as recipient. -/
def initializeSession (nativeEntry practiceEntry : QueueEntry) (sessionOk : Bool) :
    Option (SessionRow × List MatchSend) :=
  let language := nativeEntry.NativeLanguage
  if sessionOk then
    some ({ practiceUserID := practiceEntry.UserID,
            nativeUserID := nativeEntry.UserID,
            language := language },
      [ { recipient := practiceEntry.UserID,
          partnerID := nativeEntry.UserID,
          language := language },
        { recipient := practiceEntry.UserID,
          partnerID := practiceEntry.UserID,
          language := language } ])
  else none

/-- Embeds `findMatch` (hold-protocol version, `matchmaking/matching.go`):
peek the head of `queue:<NativeLanguage>` with `LINDEX 0` (empty queue is
no match) and move it into hold with `putUserOnHold`. -/
def findMatch (st : RedisState) (nativeEntry : QueueEntry) (pipeOk : Bool) :
    (Option QueueEntry × Option HoldError) × RedisState :=
  match st.queues nativeEntry.NativeLanguage with
  | [] => ((none, none), st)
  | userID :: _ => putUserOnHold st userID nativeEntry.NativeLanguage pipeOk

/-- Observable outcome of one `processMessage` call: the session row
committed by this event (if any), the `match_found` messages sent, and
whether the call returned an error. -/
structure ProcResult where
  committed : Option SessionRow
  sends : List MatchSend
  errored : Bool
deriving DecidableEq, Repr

/-- Embeds `processMessage` from `matchmaking/matching.go`: find a match
via the hold protocol; when a practice entry was obtained, initialize the
session, restoring the practice user from hold when session creation
fails and releasing the hold on success.  `holdOk`, `sessionOk`,
`restoreOk` and `releaseOk` model the success of the hold batch, of
`CreateSession`, and of the restore/release batches. -/
def processMessage (st : RedisState) (nativeEntry : QueueEntry)
    (holdOk sessionOk restoreOk releaseOk : Bool) : ProcResult × RedisState :=
  match findMatch st nativeEntry holdOk with
  | ((none, some _), st1) => ({ committed := none, sends := [], errored := true }, st1)
  | ((none, none), st1) => ({ committed := none, sends := [], errored := false }, st1)
  | ((some practiceEntry, _), st1) =>
    match initializeSession nativeEntry practiceEntry sessionOk with
    | none =>
      let r2 := restoreUserFromHold st1 practiceEntry.UserID nativeEntry.NativeLanguage restoreOk
      ({ committed := none, sends := [], errored := true }, r2.2)
    | some rs =>
      let r2 := releaseUserFromHold st1 practiceEntry.UserID nativeEntry.NativeLanguage releaseOk
      ({ committed := some rs.1, sends := rs.2, errored := false }, r2.2)

/-- Runs the matcher worker over a list of notifier events with no
failures (all fault flags `true`), collecting the committed session rows
in order.  This is the failure-free event stream of property P4. -/
def processEvents (st : RedisState) (evs : List QueueEntry) :
    List SessionRow × RedisState :=
  match evs with
  | [] => ([], st)
  | e :: rest =>
    let r1 := processMessage st e true true true true
    let r2 := processEvents r1.2 rest
    ((match r1.1.committed with
      | some row => row :: r2.1
      | none => r2.1), r2.2)

/-- The practice-side user ids committed by a failure-free run, in commit
order. -/
def commitIds (st : RedisState) (evs : List QueueEntry) : List String :=
  (processEvents st evs).1.map SessionRow.practiceUserID

/-- Decidable well-formedness of one user's `users:data` record: the hash
holds a serialised entry whose `user_id` field equals the hash key. -/
def userDataOK (st : RedisState) (u : String) : Bool :=
  match st.usersData u with
  | some (Blob.entry e) => e.UserID = u
  | _ => false

/-- Modelled from the spec: the admission operation `InitiateMatchmaking`
is declared in the `MatchmakingService` interface of `api/router.go` and
called by the HTTP handler, but its implementation is not among the
source files; this definition follows spec §4.2 (`admit`).  Step 3 (purge
any prior presence): look up `user_id`'s user-data; if present, remove
the id from the queue named by its recorded practice language and delete
the user-data (an unparseable record has no recorded language, so only
the user-data is deleted).  Steps 4–5: build the entry with the current
timestamp, write its user-data, append the id to the queue keyed by the
practice language and publish the entry onto the topic keyed by the
native language.  Validation (steps 1–2) lives in the HTTP layer. -/
def InitiateMatchmaking (st : RedisState) (userID native practice : String)
    (now : Nat) : RedisState × QueueEntry :=
  let st1 : RedisState :=
    match st.usersData userID with
    | none => st
    | some b =>
      match jsonUnmarshal b with
      | some old =>
        { st with
          queues := updFn st.queues old.PracticeLanguage
            ((st.queues old.PracticeLanguage).filter (fun v => v ≠ userID)),
          usersData := updFn st.usersData userID none }
      | none => { st with usersData := updFn st.usersData userID none }
  let entry : QueueEntry :=
    { UserID := userID, NativeLanguage := native,
      PracticeLanguage := practice, Timestamp := now }
  ({ st1 with
      usersData := updFn st1.usersData userID (some (jsonMarshal entry)),
      queues := updFn st1.queues practice (st1.queues practice ++ [userID]),
      published := st1.published ++ [(native, jsonMarshal entry)] },
    entry)

/-- Occurrences of a user id across the language queues named in `langs`. -/
def queueCount (st : RedisState) (langs : List String) (u : String) : Nat :=
  (langs.map (fun l => (st.queues l).count u)).sum

/-- Mirrors `StartMatchmakingRequest` from `api/matchmaking.go`. -/
structure StartMatchmakingRequest where
  UserID : String
  NativeLanguage : String
  PracticeLanguage : String
deriving DecidableEq, Repr

/-- Models `strings.EqualFold` (case-insensitive string equality),
comparing the character sequences after lower-casing. -/
def eqFold (a b : String) : Bool :=
  a.data.map Char.toLower = b.data.map Char.toLower

/-- Embeds `validateStartMatchmakingRequest` from `api/matchmaking.go`:
required fields, case-insensitive same-language rejection, then the two
catalog lookups (`catalog` models `languagesRepository.GetLanguageByName`,
`none` for an unknown language). -/
def validateStartMatchmakingRequest (catalog : String → Option String)
    (req : StartMatchmakingRequest) : Bool × String :=
  if req.UserID = "" ∨ req.NativeLanguage = "" ∨ req.PracticeLanguage = "" then
    (false, "Missing required fields: user_id, native_language, practice_language")
  else if eqFold req.NativeLanguage req.PracticeLanguage then
    (false, "Native language and practice language cannot be the same")
  else
    match catalog req.NativeLanguage with
    | none => (false, "Invalid native language")
    | some _ =>
      match catalog req.PracticeLanguage with
      | none => (false, "Invalid practice language")
      | some _ => (true, "")

/-- Embeds the `StartMatchmaking` handler from `api/matchmaking.go` on an
already-decoded body: validate, answering 400 without touching the state
store, otherwise run admission and answer 201.  The `Bool` component
records whether the matchmaking service was invoked at all. -/
def StartMatchmaking (catalog : String → Option String) (st : RedisState)
    (req : StartMatchmakingRequest) (now : Nat) : Nat × RedisState × Bool :=
  let v := validateStartMatchmakingRequest catalog req
  if v.1 then
    let r := InitiateMatchmaking st req.UserID req.NativeLanguage req.PracticeLanguage now
    (201, r.1, true)
  else
    (400, st, false)

/-- A registered websocket client: the buffered `send` channel (pending
frames) and its capacity (256 in `NewManager`/`HandleWebSocket`). -/
structure WSClient where
  pending : List String
  cap : Nat
deriving DecidableEq, Repr

/-- The websocket `Manager`'s client registry (`clients` map). -/
structure WSManager where
  clients : String → Option WSClient

/-- Embeds `SendMessage` from the websocket manager: look up the client
under the read lock; when no client is registered, return `nil`; when the
buffered channel has room, enqueue the frame and return `nil`; when the
non-blocking send hits the `default` branch (buffer full), close the
channel, evict the client from the map and still return `nil`.  The first
component mirrors the Go `error` return (`none` = `nil`); marshalling a
`Message` never fails for the payloads the service sends. -/
def SendMessage (m : WSManager) (userID : String) (msg : String) :
    Option Unit × WSManager :=
  match m.clients userID with
  | none => (none, m)
  | some c =>
    if c.pending.length < c.cap then
      (none,
        { clients :=
            updFn m.clients userID (some { pending := c.pending ++ [msg], cap := c.cap }) })
    else
      (none, { clients := updFn m.clients userID none })

/-- Well-formedness of one user's presence for invariant W2, relative to a
finite set of languages: the queues of `langs` hold `u` only in the queue
recorded as the practice language of `u`'s `users:data` entry (and
nowhere when there is no parseable user-data). -/
def w2For (st : RedisState) (langs : List String) (u : String) : Bool :=
  match st.usersData u with
  | none => langs.all (fun l => (st.queues l).count u = 0)
  | some b =>
    match jsonUnmarshal b with
    | some e => langs.all (fun l => l = e.PracticeLanguage ∨ (st.queues l).count u = 0)
    | none => langs.all (fun l => (st.queues l).count u = 0)

/-- Invariant used by the FIFO property for one language queue: the queue
is duplicate-free and every queued id has a well-formed user-data record. -/
def queueInv (st : RedisState) (L : String) : Prop :=
  (st.queues L).Nodup ∧ ∀ u ∈ st.queues L, userDataOK st u = true

/-! Concrete fixtures used by witnesses and counterexamples. -/

/-- A practice-English waiter. -/
def entryU1 : QueueEntry :=
  { UserID := "u1", NativeLanguage := "Spanish", PracticeLanguage := "English", Timestamp := 0 }

/-- A second practice-English waiter, admitted later. -/
def entryU2 : QueueEntry :=
  { UserID := "u2", NativeLanguage := "French", PracticeLanguage := "English", Timestamp := 1 }

/-- A native-English notifier event. -/
def evN1 : QueueEntry :=
  { UserID := "n1", NativeLanguage := "English", PracticeLanguage := "Spanish", Timestamp := 2 }

/-- A second native-English notifier event. -/
def evN2 : QueueEntry :=
  { UserID := "n2", NativeLanguage := "English", PracticeLanguage := "French", Timestamp := 3 }

/-- State with `queue:English = [u1, u2]` and matching user-data. -/
def stFifo : RedisState :=
  { queues := fun l => if l = "English" then ["u1", "u2"] else [],
    usersData := fun u =>
      if u = "u1" then some (Blob.entry entryU1)
      else if u = "u2" then some (Blob.entry entryU2) else none,
    holdSet := fun _ => [],
    holdData := fun _ => none,
    published := [] }

/-- State with `u1` held for English: hold set and hold data populated. -/
def stHold : RedisState :=
  { queues := fun _ => [],
    usersData := fun u => if u = "u1" then some (Blob.entry entryU1) else none,
    holdSet := fun l => if l = "English" then ["u1"] else [],
    holdData := fun u => if u = "u1" then some (Blob.entry entryU1) else none,
    published := [] }

/-- Websocket manager with no registered clients. -/
def wsNoClients : WSManager := { clients := fun _ => none }

/-- Websocket manager with one client for `u1` whose buffer has room. -/
def wsOneClient : WSManager :=
  { clients := fun k => if k = "u1" then some { pending := [], cap := 256 } else none }

/-- Websocket manager whose client for `u1` has a full buffer. -/
def wsFullClient : WSManager :=
  { clients := fun k => if k = "u1" then some { pending := ["x"], cap := 1 } else none }

/-- Language catalog with English, Spanish and French. -/
def catalogFix : String → Option String :=
  fun l => if l = "English" ∨ l = "Spanish" ∨ l = "French" then some l else none

/-! Helper lemmas. -/

theorem updFn_self {α : Type} (f : String → α) (k : String) (v : α) :
    updFn f k v k = v := by
  simp [updFn]

theorem updFn_ne {α : Type} (f : String → α) (k k' : String) (v : α) (h : k' ≠ k) :
    updFn f k v k' = f k' := by
  simp [updFn, h]

theorem srem_not_mem (s : List String) (u : String) : u ∉ srem s u := by
  simp [srem]

theorem mem_srem_of_ne (s : List String) (u v : String) (h : v ≠ u) :
    v ∈ srem s u ↔ v ∈ s := by
  simp [srem, h]

theorem srem_idem (s : List String) (u : String) : srem (srem s u) u = srem s u := by
  simp [srem, List.filter_filter]

theorem count_filter_ne_self (l : List String) (u : String) :
    (l.filter (fun v => v ≠ u)).count u = 0 := by
  rw [List.count_eq_zero]
  simp [List.mem_filter]

theorem userDataOK_spec (st : RedisState) (u : String) (h : userDataOK st u = true) :
    ∃ e, st.usersData u = some (Blob.entry e) ∧ e.UserID = u := by
  unfold userDataOK at h
  cases hd : st.usersData u with
  | none => rw [hd] at h; cases h
  | some b =>
    cases b with
    | entry e =>
      rw [hd] at h
      simp at h
      exact ⟨e, rfl, h⟩
    | garbage s => rw [hd] at h; cases h

theorem userDataOK_congr (st st' : RedisState) (u : String)
    (h : st'.usersData u = st.usersData u) : userDataOK st' u = userDataOK st u := by
  unfold userDataOK
  rw [h]

/-- C6: `releaseUserFromHold` (commit path) succeeds, removes `u` from
`hold:<L>`, deletes `hold:data:<u>` and deletes `u`'s `users:data` record
in the one atomic batch, and changes nothing else: every language queue,
every other language's hold set, every other user's hold data and user
data, and the published-topic log are unchanged. -/
theorem releaseUserFromHold_frame (st : RedisState) (u L : String) :
    (releaseUserFromHold st u L true).1 = none ∧
    (∀ l, ((releaseUserFromHold st u L true).2).queues l = st.queues l) ∧
    u ∉ ((releaseUserFromHold st u L true).2).holdSet L ∧
    (∀ v, v ≠ u →
      (v ∈ ((releaseUserFromHold st u L true).2).holdSet L ↔ v ∈ st.holdSet L)) ∧
    (∀ l, l ≠ L → ((releaseUserFromHold st u L true).2).holdSet l = st.holdSet l) ∧
    ((releaseUserFromHold st u L true).2).holdData u = none ∧
    (∀ v, v ≠ u → ((releaseUserFromHold st u L true).2).holdData v = st.holdData v) ∧
    ((releaseUserFromHold st u L true).2).usersData u = none ∧
    (∀ v, v ≠ u → ((releaseUserFromHold st u L true).2).usersData v = st.usersData v) ∧
    ((releaseUserFromHold st u L true).2).published = st.published := by
  refine ⟨rfl, fun l => rfl, ?_, ?_, ?_, ?_, ?_, ?_, ?_, rfl⟩
  · show u ∉ updFn st.holdSet L (srem (st.holdSet L) u) L
    rw [updFn_self]
    exact srem_not_mem _ _
  · intro v hv
    show v ∈ updFn st.holdSet L (srem (st.holdSet L) u) L ↔ v ∈ st.holdSet L
    rw [updFn_self]
    exact mem_srem_of_ne _ _ _ hv
  · intro l hl
    exact updFn_ne _ _ _ _ hl
  · exact updFn_self _ _ _
  · intro v hv
    exact updFn_ne _ _ _ _ hv
  · exact updFn_self _ _ _
  · intro v hv
    exact updFn_ne _ _ _ _ hv

/-- C7: `restoreUserFromHold` (abort path): when `hold:data:<u>` is
missing it only scrubs `u` from `hold:<L>` and returns success, leaving
queues, user data, hold data and the other hold sets untouched; when
`hold:data:<u>` holds a stored entry it returns success and atomically
appends `u` to the tail of `queue:<L>`, removes `u` from `hold:<L>` and
deletes `hold:data:<u>`, leaving the other queues and all user data
untouched. -/
theorem restoreUserFromHold_cases (st : RedisState) (u L : String) :
    (st.holdData u = none →
      (restoreUserFromHold st u L true).1 = none ∧
      (∀ l, ((restoreUserFromHold st u L true).2).queues l = st.queues l) ∧
      (∀ v, ((restoreUserFromHold st u L true).2).usersData v = st.usersData v) ∧
      (∀ v, ((restoreUserFromHold st u L true).2).holdData v = st.holdData v) ∧
      u ∉ ((restoreUserFromHold st u L true).2).holdSet L ∧
      (∀ v, v ≠ u →
        (v ∈ ((restoreUserFromHold st u L true).2).holdSet L ↔ v ∈ st.holdSet L)) ∧
      (∀ l, l ≠ L → ((restoreUserFromHold st u L true).2).holdSet l = st.holdSet l) ∧
      ((restoreUserFromHold st u L true).2).published = st.published) ∧
    (∀ e, st.holdData u = some (Blob.entry e) →
      (restoreUserFromHold st u L true).1 = none ∧
      ((restoreUserFromHold st u L true).2).queues L = st.queues L ++ [u] ∧
      (∀ l, l ≠ L → ((restoreUserFromHold st u L true).2).queues l = st.queues l) ∧
      u ∉ ((restoreUserFromHold st u L true).2).holdSet L ∧
      (∀ v, v ≠ u →
        (v ∈ ((restoreUserFromHold st u L true).2).holdSet L ↔ v ∈ st.holdSet L)) ∧
      (∀ l, l ≠ L → ((restoreUserFromHold st u L true).2).holdSet l = st.holdSet l) ∧
      ((restoreUserFromHold st u L true).2).holdData u = none ∧
      (∀ v, v ≠ u → ((restoreUserFromHold st u L true).2).holdData v = st.holdData v) ∧
      (∀ v, ((restoreUserFromHold st u L true).2).usersData v = st.usersData v) ∧
      ((restoreUserFromHold st u L true).2).published = st.published) := by
  constructor
  · intro h
    have h1 : restoreUserFromHold st u L true =
        (none, { st with holdSet := updFn st.holdSet L (srem (st.holdSet L) u) }) := by
      simp only [restoreUserFromHold, h]
    rw [h1]
    refine ⟨rfl, fun l => rfl, fun v => rfl, fun v => rfl, ?_, ?_, ?_, rfl⟩
    · show u ∉ updFn st.holdSet L (srem (st.holdSet L) u) L
      rw [updFn_self]
      exact srem_not_mem _ _
    · intro v hv
      show v ∈ updFn st.holdSet L (srem (st.holdSet L) u) L ↔ v ∈ st.holdSet L
      rw [updFn_self]
      exact mem_srem_of_ne _ _ _ hv
    · intro l hl
      exact updFn_ne _ _ _ _ hl
  · intro e h
    have h1 : restoreUserFromHold st u L true =
        (none,
          { st with
            queues := updFn st.queues L (st.queues L ++ [u]),
            holdSet := updFn st.holdSet L (srem (st.holdSet L) u),
            holdData := updFn st.holdData u none }) := by
      simp only [restoreUserFromHold, h, jsonUnmarshal, if_true]
    rw [h1]
    refine ⟨rfl, ?_, ?_, ?_, ?_, ?_, ?_, ?_, fun v => rfl, rfl⟩
    · exact updFn_self _ _ _
    · intro l hl
      exact updFn_ne _ _ _ _ hl
    · show u ∉ updFn st.holdSet L (srem (st.holdSet L) u) L
      rw [updFn_self]
      exact srem_not_mem _ _
    · intro v hv
      show v ∈ updFn st.holdSet L (srem (st.holdSet L) u) L ↔ v ∈ st.holdSet L
      rw [updFn_self]
      exact mem_srem_of_ne _ _ _ hv
    · intro l hl
      exact updFn_ne _ _ _ _ hl
    · exact updFn_self _ _ _
    · intro v hv
      exact updFn_ne _ _ _ _ hv

/-- Closed instances of C7's two cases: the no-hold-data case on a state
where `u1` is only in the hold set, and the stored-entry case on a state
where `u1` is fully held for English. -/
theorem restoreUserFromHold_cases_witness :
    ((restoreUserFromHold stFifo "u1" "English" true).1 = none ∧
      "u1" ∉ ((restoreUserFromHold stFifo "u1" "English" true).2).holdSet "English") ∧
    ((restoreUserFromHold stHold "u1" "English" true).1 = none ∧
      ((restoreUserFromHold stHold "u1" "English" true).2).queues "English" = ["u1"]) := by
  constructor
  · have h := (restoreUserFromHold_cases stFifo "u1" "English").1 (by decide)
    exact ⟨h.1, h.2.2.2.2.1⟩
  · have h := (restoreUserFromHold_cases stHold "u1" "English").2 entryU1 (by decide)
    refine ⟨h.1, ?_⟩
    rw [h.2.1]
    decide

/-- C10: when `u` has no `hold:data` record, `restoreUserFromHold`
returns success and changes no queue and no user-data record (it only
scrubs `u` from `hold:<L>`), and running it a second time returns success
again and leaves the state of the first run completely unchanged, so two
consecutive calls are equivalent to one. -/
theorem restoreUserFromHold_noop_idempotent (st : RedisState) (u L : String)
    (h : st.holdData u = none) :
    (restoreUserFromHold st u L true).1 = none ∧
    (∀ l, ((restoreUserFromHold st u L true).2).queues l = st.queues l) ∧
    (∀ v, ((restoreUserFromHold st u L true).2).usersData v = st.usersData v) ∧
    (restoreUserFromHold (restoreUserFromHold st u L true).2 u L true).1 = none ∧
    (restoreUserFromHold (restoreUserFromHold st u L true).2 u L true).2 =
      (restoreUserFromHold st u L true).2 := by
  have h1 : (restoreUserFromHold st u L true).2 =
      { st with holdSet := updFn st.holdSet L (srem (st.holdSet L) u) } := by
    simp only [restoreUserFromHold, h]
  refine ⟨?_, ?_, ?_, ?_, ?_⟩
  · simp only [restoreUserFromHold, h]
  · intro l
    rw [h1]
  · intro v
    rw [h1]
  · rw [h1]
    simp only [restoreUserFromHold, h]
  · rw [h1]
    simp only [restoreUserFromHold, h]
    congr 1
    funext l
    by_cases hl : l = L
    · subst hl
      rw [updFn_self, updFn_self, srem_idem]
    · rw [updFn_ne _ _ _ _ hl]

theorem putUserOnHold_head_ok (st : RedisState) (hd : String) (tl : List String)
    (L : String) (e : QueueEntry)
    (hq : st.queues L = hd :: tl)
    (hde : st.usersData hd = some (Blob.entry e)) :
    putUserOnHold st hd L true =
      ((some e, none),
        { st with
          queues := updFn st.queues L tl,
          holdSet := updFn st.holdSet L (sadd (st.holdSet L) hd),
          holdData := updFn st.holdData hd (some (Blob.entry e)) }) := by
  simp [putUserOnHold, hq, hde, jsonUnmarshal]

/-- C2: on every failure path of `putUserOnHold` — popped head different
from the expected user, missing or unparseable user-data, or a failing
atomic hold batch — the popped id is pushed back onto the head of
`queue:<L>`, no entry is returned, and every queue observable afterwards
equals its state before the call. -/
theorem putUserOnHold_failure_preserves_queue (st : RedisState) (u L : String)
    (pipeOk : Bool) (err : HoldError)
    (h : (putUserOnHold st u L pipeOk).1.2 = some err) :
    (putUserOnHold st u L pipeOk).1.1 = none ∧
    ∀ l, ((putUserOnHold st u L pipeOk).2).queues l = st.queues l := by
  rcases hq : st.queues L with _ | ⟨popped, rest⟩
  · simp only [putUserOnHold, hq] at h
    cases h
  · have hupd : ∀ l, updFn (updFn st.queues L rest) L (popped :: rest) l = st.queues l := by
      intro l
      by_cases hl : l = L
      · subst hl
        rw [updFn_self, hq]
      · rw [updFn_ne _ _ _ _ hl, updFn_ne _ _ _ _ hl]
    by_cases hp : popped = u
    · subst hp
      cases hd : st.usersData popped with
      | none =>
        have h1 : putUserOnHold st popped L pipeOk =
            ((none, some (HoldError.dataMissing popped)),
              { st with queues := updFn (updFn st.queues L rest) L (popped :: rest) }) := by
          simp only [putUserOnHold, hq, hd, ne_eq, not_true_eq_false, if_false, ite_false]
        rw [h1]
        exact ⟨rfl, hupd⟩
      | some blob =>
        cases hb : jsonUnmarshal blob with
        | none =>
          have h1 : putUserOnHold st popped L pipeOk =
              ((none, some (HoldError.unmarshalFailed popped)),
                { st with queues := updFn (updFn st.queues L rest) L (popped :: rest) }) := by
            simp only [putUserOnHold, hq, hd, hb, ne_eq, not_true_eq_false, if_false, ite_false]
          rw [h1]
          exact ⟨rfl, hupd⟩
        | some entry =>
          cases hpk : pipeOk with
          | true =>
            have h1 : (putUserOnHold st popped L true).1.2 = none := by
              simp only [putUserOnHold, hq, hd, hb, ne_eq, not_true_eq_false, if_false,
                ite_false, if_true]
            rw [hpk] at h
            rw [h1] at h
            cases h
          | false =>
            have h1 : putUserOnHold st popped L false =
                ((none, some (HoldError.pipeFailed popped)),
                  { st with queues := updFn (updFn st.queues L rest) L (popped :: rest) }) := by
              simp [putUserOnHold, hq, hd, hb]
            rw [h1]
            exact ⟨rfl, hupd⟩
    · have h1 : putUserOnHold st u L pipeOk =
          ((none, some (HoldError.raceLost u popped)),
            { st with queues := updFn (updFn st.queues L rest) L (popped :: rest) }) := by
        simp only [putUserOnHold, hq, ne_eq, hp, not_false_eq_true, if_true, ite_true]
      rw [h1]
      exact ⟨rfl, hupd⟩

/-- Closed instance of C2: popping for expected user `zz` while `u1`
heads `queue:English` fails `raceLost` and leaves the queue as it was. -/
theorem putUserOnHold_failure_preserves_queue_witness :
    (putUserOnHold stFifo "zz" "English" true).1.2 =
      some (HoldError.raceLost "zz" "u1") ∧
    ((putUserOnHold stFifo "zz" "English" true).2).queues "English" =
      stFifo.queues "English" :=
  ⟨by decide,
    (putUserOnHold_failure_preserves_queue stFifo "zz" "English" true
      (HoldError.raceLost "zz" "u1") (by decide)).2 "English"⟩

theorem sum_map_zero_of (as : List String) (f : String → Nat)
    (h : ∀ l ∈ as, f l = 0) : (as.map f).sum = 0 := by
  induction as with
  | nil => rfl
  | cons a as' ih =>
    rw [List.map_cons, List.sum_cons, h a (List.mem_cons_self _ _),
      ih (fun l hl => h l (List.mem_cons_of_mem _ hl))]

theorem sum_map_single (langs : List String) (p : String) (f : String → Nat)
    (hnd : langs.Nodup) (hp : p ∈ langs)
    (hf : ∀ l ∈ langs, f l = if l = p then 1 else 0) :
    (langs.map f).sum = 1 := by
  induction langs with
  | nil => cases hp
  | cons a as ih =>
    rw [List.map_cons, List.sum_cons]
    rcases List.mem_cons.mp hp with h | h
    · have hz : (as.map f).sum = 0 := by
        apply sum_map_zero_of
        intro l hl
        have hla : l ≠ p := by
          intro hlp
          subst hlp
          rw [h] at hl
          exact (List.nodup_cons.mp hnd).1 hl
        rw [hf l (List.mem_cons_of_mem _ hl), if_neg hla]
      rw [hf a (List.mem_cons_self _ _), if_pos h.symm, hz]
    · have ha : a ≠ p := by
        intro hap
        subst hap
        exact (List.nodup_cons.mp hnd).1 h
      rw [hf a (List.mem_cons_self _ _), if_neg ha,
        ih (List.nodup_cons.mp hnd).2 h (fun l hl => hf l (List.mem_cons_of_mem _ hl))]

theorem InitiateMatchmaking_usersData (st : RedisState) (u n p : String) (t : Nat) :
    ((InitiateMatchmaking st u n p t).1).usersData u =
      some (Blob.entry
        { UserID := u, NativeLanguage := n, PracticeLanguage := p, Timestamp := t }) := by
  simp only [InitiateMatchmaking]
  rw [updFn_self]
  rfl

theorem InitiateMatchmaking_count (st : RedisState) (langs : List String)
    (u n p : String) (t : Nat) (hw : w2For st langs u = true) :
    ∀ l ∈ langs, (((InitiateMatchmaking st u n p t).1).queues l).count u =
      if l = p then 1 else 0 := by
  intro l hl
  cases hu : st.usersData u with
  | none =>
    simp only [w2For, hu] at hw
    have hcount : ∀ l' ∈ langs, (st.queues l').count u = 0 := by
      intro l' hl'
      have := List.all_eq_true.mp hw l' hl'
      simpa using this
    have hqeq : ((InitiateMatchmaking st u n p t).1).queues =
        updFn st.queues p (st.queues p ++ [u]) := by
      simp only [InitiateMatchmaking, hu]
    rw [hqeq]
    by_cases hlp : l = p
    · rw [hlp, updFn_self, if_pos rfl, List.count_append, hcount p (hlp ▸ hl)]
      simp
    · rw [updFn_ne _ _ _ _ hlp, if_neg hlp]
      exact hcount l hl
  | some b =>
    cases b with
    | entry e0 =>
      simp only [w2For, hu, jsonUnmarshal] at hw
      have hcount : ∀ l' ∈ langs, l' ≠ e0.PracticeLanguage →
          (st.queues l').count u = 0 := by
        intro l' hl' hne
        have := List.all_eq_true.mp hw l' hl'
        simp at this
        rcases this with h | h
        · exact absurd h hne
        · exact h
      have hqeq : ((InitiateMatchmaking st u n p t).1).queues =
          updFn (updFn st.queues e0.PracticeLanguage
              ((st.queues e0.PracticeLanguage).filter (fun v => v ≠ u))) p
            ((updFn st.queues e0.PracticeLanguage
              ((st.queues e0.PracticeLanguage).filter (fun v => v ≠ u))) p ++ [u]) := by
        simp only [InitiateMatchmaking, hu, jsonUnmarshal]
      have hzero : ∀ l' ∈ langs,
          ((updFn st.queues e0.PracticeLanguage
            ((st.queues e0.PracticeLanguage).filter (fun v => v ≠ u))) l').count u = 0 := by
        intro l' hl'
        by_cases h' : l' = e0.PracticeLanguage
        · rw [h', updFn_self]
          exact count_filter_ne_self _ _
        · rw [updFn_ne _ _ _ _ h']
          exact hcount l' hl' h'
      rw [hqeq]
      by_cases hlp : l = p
      · rw [hlp, updFn_self, if_pos rfl, List.count_append]
        by_cases hpe : p = e0.PracticeLanguage
        · rw [hpe, updFn_self, count_filter_ne_self]
          simp
        · rw [updFn_ne _ _ _ _ hpe, hcount p (hlp ▸ hl) hpe]
          simp
      · rw [updFn_ne _ _ _ _ hlp, if_neg hlp]
        exact hzero l hl
    | garbage s =>
      simp only [w2For, hu, jsonUnmarshal] at hw
      have hcount : ∀ l' ∈ langs, (st.queues l').count u = 0 := by
        intro l' hl'
        have := List.all_eq_true.mp hw l' hl'
        simpa using this
      have hqeq : ((InitiateMatchmaking st u n p t).1).queues =
          updFn st.queues p (st.queues p ++ [u]) := by
        simp only [InitiateMatchmaking, hu, jsonUnmarshal]
      rw [hqeq]
      by_cases hlp : l = p
      · rw [hlp, updFn_self, if_pos rfl, List.count_append, hcount p (hlp ▸ hl)]
        simp
      · rw [updFn_ne _ _ _ _ hlp, if_neg hlp]
        exact hcount l hl

theorem InitiateMatchmaking_w2 (st : RedisState) (langs : List String)
    (u n p : String) (t : Nat) (hw : w2For st langs u = true) :
    w2For ((InitiateMatchmaking st u n p t).1) langs u = true := by
  have hdata := InitiateMatchmaking_usersData st u n p t
  have hcnt := InitiateMatchmaking_count st langs u n p t hw
  simp only [w2For, hdata, jsonUnmarshal]
  rw [List.all_eq_true]
  intro l hl
  by_cases hlp : l = p
  · simp [hlp]
  · have := hcnt l hl
    rw [if_neg hlp] at this
    simp [this, hlp]

/-- C1: admission is idempotent and enforces W2.  For any user `u` whose
initial presence satisfies the per-user W2 discipline over the catalog
`langs`, after two consecutive admissions (with possibly different
languages) exactly one queue occurrence of `u` exists across all
language queues and the user-data map holds exactly the entry of the
second admission. -/
theorem InitiateMatchmaking_two_admissions_single_entry
    (st : RedisState) (langs : List String) (u n1 p1 n2 p2 : String) (t1 t2 : Nat)
    (hnd : langs.Nodup) (hp2 : p2 ∈ langs) (hw : w2For st langs u = true) :
    queueCount
        ((InitiateMatchmaking ((InitiateMatchmaking st u n1 p1 t1).1) u n2 p2 t2).1)
        langs u = 1 ∧
    ((InitiateMatchmaking ((InitiateMatchmaking st u n1 p1 t1).1) u n2 p2 t2).1).usersData u =
      some (Blob.entry
        { UserID := u, NativeLanguage := n2, PracticeLanguage := p2, Timestamp := t2 }) := by
  have hw1 := InitiateMatchmaking_w2 st langs u n1 p1 t1 hw
  have hcnt :=
    InitiateMatchmaking_count ((InitiateMatchmaking st u n1 p1 t1).1) langs u n2 p2 t2 hw1
  constructor
  · unfold queueCount
    exact sum_map_single langs p2 _ hnd hp2 hcnt
  · exact InitiateMatchmaking_usersData _ u n2 p2 t2

/-- Closed instance of C1: `u1` (already queued for English) is admitted
for Spanish then for French, over the catalog of three languages; exactly
one queue occurrence and the French entry remain. -/
theorem InitiateMatchmaking_two_admissions_single_entry_witness :
    (["English", "Spanish", "French"] : List String).Nodup ∧
    w2For stFifo ["English", "Spanish", "French"] "u1" = true ∧
    queueCount
        ((InitiateMatchmaking ((InitiateMatchmaking stFifo "u1" "English" "Spanish" 5).1)
          "u1" "English" "French" 6).1)
        ["English", "Spanish", "French"] "u1" = 1 :=
  ⟨by decide, by decide,
    (InitiateMatchmaking_two_admissions_single_entry stFifo
      ["English", "Spanish", "French"] "u1" "English" "Spanish" "English" "French" 5 6
      (by decide) (by decide) (by decide)).1⟩

/-- C3: when the practice-side head of `queue:<L>` was taken on hold for
`L = N.NativeLanguage` and session creation then fails, `processMessage`
restores the practice waiter: the popped user id is present in
`queue:<L>` again after the event, nothing is committed and nothing is
sent, and the native-side notifier `N` is not acted upon (its membership
in every queue is exactly as before). -/
theorem processMessage_abort_restores_practice_user (st : RedisState)
    (native : QueueEntry) (hd : String) (tl : List String)
    (hq : st.queues native.NativeLanguage = hd :: tl)
    (hwf : userDataOK st hd = true) :
    hd ∈ ((processMessage st native true false true true).2).queues native.NativeLanguage ∧
    (processMessage st native true false true true).1.committed = none ∧
    (processMessage st native true false true true).1.sends = [] ∧
    (native.UserID ≠ hd →
      ∀ l, (native.UserID ∈ ((processMessage st native true false true true).2).queues l ↔
        native.UserID ∈ st.queues l)) := by
  obtain ⟨e, he, heid⟩ := userDataOK_spec st hd hwf
  have hput := putUserOnHold_head_ok st hd tl native.NativeLanguage e hq he
  have hfm : findMatch st native true =
      ((some e, none),
        { st with
          queues := updFn st.queues native.NativeLanguage tl,
          holdSet := updFn st.holdSet native.NativeLanguage
            (sadd (st.holdSet native.NativeLanguage) hd),
          holdData := updFn st.holdData hd (some (Blob.entry e)) }) := by
    rw [findMatch]
    rw [hq]
    exact hput
  have hrest :
      restoreUserFromHold
        { st with
          queues := updFn st.queues native.NativeLanguage tl,
          holdSet := updFn st.holdSet native.NativeLanguage
            (sadd (st.holdSet native.NativeLanguage) hd),
          holdData := updFn st.holdData hd (some (Blob.entry e)) }
        e.UserID native.NativeLanguage true =
      (none,
        { st with
          queues := updFn (updFn st.queues native.NativeLanguage tl)
            native.NativeLanguage
            ((updFn st.queues native.NativeLanguage tl) native.NativeLanguage ++ [e.UserID]),
          holdSet := updFn
            (updFn st.holdSet native.NativeLanguage
              (sadd (st.holdSet native.NativeLanguage) hd))
            native.NativeLanguage
            (srem ((updFn st.holdSet native.NativeLanguage
              (sadd (st.holdSet native.NativeLanguage) hd)) native.NativeLanguage) e.UserID),
          holdData := updFn (updFn st.holdData hd (some (Blob.entry e))) e.UserID none }) := by
    have hhd : (updFn st.holdData hd (some (Blob.entry e))) e.UserID =
        some (Blob.entry e) := by
      rw [heid]
      exact updFn_self _ _ _
    simp only [restoreUserFromHold, hhd, jsonUnmarshal, if_true]
  have hpm : processMessage st native true false true true =
      ({ committed := none, sends := [], errored := true },
        { st with
          queues := updFn (updFn st.queues native.NativeLanguage tl)
            native.NativeLanguage
            ((updFn st.queues native.NativeLanguage tl) native.NativeLanguage ++ [e.UserID]),
          holdSet := updFn
            (updFn st.holdSet native.NativeLanguage
              (sadd (st.holdSet native.NativeLanguage) hd))
            native.NativeLanguage
            (srem ((updFn st.holdSet native.NativeLanguage
              (sadd (st.holdSet native.NativeLanguage) hd)) native.NativeLanguage) e.UserID),
          holdData := updFn (updFn st.holdData hd (some (Blob.entry e))) e.UserID none }) := by
    rw [processMessage, hfm]
    simp only [initializeSession, if_false, Bool.false_eq_true, ite_false]
    rw [hrest]
  rw [hpm]
  have hqL : (updFn (updFn st.queues native.NativeLanguage tl) native.NativeLanguage
      ((updFn st.queues native.NativeLanguage tl) native.NativeLanguage ++ [e.UserID]))
      native.NativeLanguage = tl ++ [hd] := by
    rw [updFn_self, updFn_self, heid]
  refine ⟨?_, rfl, rfl, ?_⟩
  · show hd ∈ (updFn (updFn st.queues native.NativeLanguage tl) native.NativeLanguage
      ((updFn st.queues native.NativeLanguage tl) native.NativeLanguage ++ [e.UserID]))
      native.NativeLanguage
    rw [hqL]
    simp
  · intro hne l
    by_cases hl : l = native.NativeLanguage
    · rw [hl]
      show native.UserID ∈ (updFn (updFn st.queues native.NativeLanguage tl)
          native.NativeLanguage
          ((updFn st.queues native.NativeLanguage tl) native.NativeLanguage ++ [e.UserID]))
          native.NativeLanguage ↔
        native.UserID ∈ st.queues native.NativeLanguage
      rw [hqL, hq]
      simp only [List.mem_append, List.mem_cons, List.mem_singleton,
        List.not_mem_nil, or_false]
      constructor
      · rintro (h | h)
        · exact Or.inr h
        · exact Or.inl h
      · rintro (h | h)
        · exact Or.inr h
        · exact Or.inl h
    · show native.UserID ∈ (updFn (updFn st.queues native.NativeLanguage tl)
          native.NativeLanguage
          ((updFn st.queues native.NativeLanguage tl) native.NativeLanguage ++ [e.UserID])) l ↔
        native.UserID ∈ st.queues l
      rw [updFn_ne _ _ _ _ hl, updFn_ne _ _ _ _ hl]

/-- Closed instance of C3: `queue:English = [u1, u2]`, the English
notifier event for `n1` arrives, session creation fails, and `u1` is back
in `queue:English`. -/
theorem processMessage_abort_restores_practice_user_witness :
    stFifo.queues "English" = "u1" :: ["u2"] ∧
    "u1" ∈ ((processMessage stFifo evN1 true false true true).2).queues "English" :=
  ⟨by decide,
    (processMessage_abort_restores_practice_user stFifo evN1 "u1" ["u2"]
      (by decide) (by decide)).1⟩

theorem processMessage_commit_head (st : RedisState) (native : QueueEntry)
    (hd : String) (tl : List String) (e : QueueEntry)
    (hq : st.queues native.NativeLanguage = hd :: tl)
    (hde : st.usersData hd = some (Blob.entry e)) :
    (processMessage st native true true true true).1.committed =
      some { practiceUserID := e.UserID, nativeUserID := native.UserID,
             language := native.NativeLanguage } ∧
    ((processMessage st native true true true true).2).queues native.NativeLanguage = tl ∧
    (∀ l, l ≠ native.NativeLanguage →
      ((processMessage st native true true true true).2).queues l = st.queues l) ∧
    (∀ v, v ≠ e.UserID →
      ((processMessage st native true true true true).2).usersData v = st.usersData v) := by
  have hput := putUserOnHold_head_ok st hd tl native.NativeLanguage e hq hde
  have hfm : findMatch st native true =
      ((some e, none),
        { st with
          queues := updFn st.queues native.NativeLanguage tl,
          holdSet := updFn st.holdSet native.NativeLanguage
            (sadd (st.holdSet native.NativeLanguage) hd),
          holdData := updFn st.holdData hd (some (Blob.entry e)) }) := by
    rw [findMatch]
    rw [hq]
    exact hput
  have hpm : processMessage st native true true true true =
      (⟨some ⟨e.UserID, native.UserID, native.NativeLanguage⟩,
        [⟨e.UserID, native.UserID, native.NativeLanguage⟩,
          ⟨e.UserID, e.UserID, native.NativeLanguage⟩], false⟩,
        { st with
          queues := updFn st.queues native.NativeLanguage tl,
          holdSet := updFn
            (updFn st.holdSet native.NativeLanguage
              (sadd (st.holdSet native.NativeLanguage) hd))
            native.NativeLanguage
            (srem ((updFn st.holdSet native.NativeLanguage
              (sadd (st.holdSet native.NativeLanguage) hd)) native.NativeLanguage) e.UserID),
          holdData := updFn (updFn st.holdData hd (some (Blob.entry e))) e.UserID none,
          usersData := updFn st.usersData e.UserID none }) := by
    rw [processMessage, hfm]
    simp only [initializeSession, if_true, releaseUserFromHold]
  rw [hpm]
  refine ⟨rfl, ?_, ?_, ?_⟩
  · exact updFn_self _ _ _
  · intro l hl
    exact updFn_ne _ _ _ _ hl
  · intro v hv
    exact updFn_ne _ _ _ _ hv

theorem processEvents_commits_prefix (L : String) (evs : List QueueEntry) :
    ∀ st : RedisState, queueInv st L → (∀ e ∈ evs, e.NativeLanguage = L) →
      commitIds st evs ++ ((processEvents st evs).2).queues L = st.queues L := by
  induction evs with
  | nil =>
    intro st _ _
    simp [commitIds, processEvents]
  | cons ev rest ih =>
    intro st hinv hevs
    have hL : ev.NativeLanguage = L := hevs ev (List.mem_cons_self _ _)
    rcases hq : st.queues L with _ | ⟨hd, tl⟩
    · have hq' : st.queues ev.NativeLanguage = [] := by
        rw [hL]
        exact hq
      have hpm : processMessage st ev true true true true =
          ({ committed := none, sends := [], errored := false }, st) := by
        rw [processMessage, findMatch, hq']
      have hpe : processEvents st (ev :: rest) = processEvents st rest := by
        rw [processEvents, hpm]
      have hci : commitIds st (ev :: rest) = commitIds st rest := by
        unfold commitIds
        rw [hpe]
      rw [hci, hpe, ← hq]
      exact ih st hinv (fun e he => hevs e (List.mem_cons_of_mem _ he))
    · have hmem_hd : hd ∈ st.queues L := by
        rw [hq]
        exact List.mem_cons_self _ _
      obtain ⟨e, hde, heid⟩ := userDataOK_spec st hd (hinv.2 hd hmem_hd)
      have hq' : st.queues ev.NativeLanguage = hd :: tl := by
        rw [hL]
        exact hq
      have hcommit := processMessage_commit_head st ev hd tl e hq' hde
      have hq1 : ((processMessage st ev true true true true).2).queues L = tl := by
        have h2 := hcommit.2.1
        rw [hL] at h2
        exact h2
      have hnd := hinv.1
      rw [hq] at hnd
      have hrest_inv : queueInv ((processMessage st ev true true true true).2) L := by
        constructor
        · rw [hq1]
          exact (List.nodup_cons.mp hnd).2
        · intro v hv
          rw [hq1] at hv
          have hvne : v ≠ hd := by
            intro hveq
            subst hveq
            exact (List.nodup_cons.mp hnd).1 hv
          have hvne' : v ≠ e.UserID := by
            rw [heid]
            exact hvne
          have hud := hcommit.2.2.2 v hvne'
          rw [userDataOK_congr st ((processMessage st ev true true true true).2) v hud]
          exact hinv.2 v (by rw [hq]; exact List.mem_cons_of_mem _ hv)
      have hpe : processEvents st (ev :: rest) =
          (({ practiceUserID := e.UserID, nativeUserID := ev.UserID,
              language := ev.NativeLanguage } : SessionRow) ::
            (processEvents ((processMessage st ev true true true true).2) rest).1,
           (processEvents ((processMessage st ev true true true true).2) rest).2) := by
        rw [processEvents]
        rw [hcommit.1]
      have hci : commitIds st (ev :: rest) =
          e.UserID :: commitIds ((processMessage st ev true true true true).2) rest := by
        unfold commitIds
        rw [hpe]
        rfl
      rw [hci, hpe]
      have hih := ih ((processMessage st ev true true true true).2) hrest_inv
        (fun e' he' => hevs e' (List.mem_cons_of_mem _ he'))
      rw [hq1] at hih
      rw [heid]
      show hd :: (commitIds ((processMessage st ev true true true true).2) rest ++
        ((processEvents ((processMessage st ev true true true true).2) rest).2).queues L) =
        hd :: tl
      rw [hih]

theorem prefix_mem_split (a : String) :
    ∀ (xs pre rest ys : List String), pre ++ rest = xs ++ a :: ys →
      a ∉ xs → a ∈ pre → ∃ m, pre = xs ++ a :: m := by
  intro xs
  induction xs with
  | nil =>
    intro pre rest ys heq _ hmem
    cases pre with
    | nil => cases hmem
    | cons b pre' =>
      simp only [List.cons_append, List.nil_append] at heq
      injection heq with h1 h2
      refine ⟨pre', ?_⟩
      rw [h1]
      rfl
  | cons x xs' ih =>
    intro pre rest ys heq hnot hmem
    cases pre with
    | nil => cases hmem
    | cons b pre' =>
      simp only [List.cons_append] at heq
      injection heq with h1 h2
      have hax : a ≠ x := fun h => hnot (h ▸ List.mem_cons_self _ _)
      have hmem' : a ∈ pre' := by
        rcases List.mem_cons.mp hmem with h | h
        · exact absurd (h.trans h1) hax
        · exact h
      have hnot' : a ∉ xs' := fun h => hnot (List.mem_cons_of_mem _ h)
      obtain ⟨m, hm⟩ := ih pre' rest ys h2 hnot' hmem'
      refine ⟨m, ?_⟩
      rw [h1, hm]
      rfl

/-- C5: FIFO per practice language.  With well-formed, duplicate-free
state for language `L` (invariant W2) and a failure-free stream of
notifier events for `L`, the committed practice users form a prefix of
`queue:<L>`: if `u1` was queued ahead of `u2` and `u2` commits during the
run, then `u1` committed strictly earlier — the commit sequence contains
`u1` before `u2` at exactly their queue positions. -/
theorem matcher_fifo_per_language (st : RedisState) (L u1 u2 : String)
    (l1 l2 l3 : List String) (evs : List QueueEntry)
    (hq : st.queues L = l1 ++ u1 :: (l2 ++ u2 :: l3))
    (hinv : queueInv st L)
    (hevs : ∀ e ∈ evs, e.NativeLanguage = L)
    (hmem : u2 ∈ commitIds st evs) :
    ∃ m3, commitIds st evs = l1 ++ u1 :: (l2 ++ u2 :: m3) := by
  have hpre := processEvents_commits_prefix L evs st hinv hevs
  have hq' : st.queues L = (l1 ++ u1 :: l2) ++ u2 :: l3 := by
    rw [hq]
    simp
  have hnd := hinv.1
  rw [hq'] at hnd
  have hnotmem : u2 ∉ l1 ++ u1 :: l2 := by
    rw [List.nodup_append] at hnd
    intro hc
    exact hnd.2.2 hc (List.mem_cons_self _ _)
  rw [hq'] at hpre
  obtain ⟨m3, hm3⟩ := prefix_mem_split u2 (l1 ++ u1 :: l2) (commitIds st evs)
    (((processEvents st evs).2).queues L) l3 hpre hnotmem hmem
  refine ⟨m3, ?_⟩
  rw [hm3]
  simp

/-- Closed instance of C5: `queue:English = [u1, u2]`, two failure-free
native-English events; `u2` commits, and the commit sequence places `u1`
strictly before `u2`. -/
theorem matcher_fifo_per_language_witness :
    queueInv stFifo "English" ∧
    "u2" ∈ commitIds stFifo [evN1, evN2] ∧
    ∃ m3, commitIds stFifo [evN1, evN2] = [] ++ "u1" :: ([] ++ "u2" :: m3) :=
  ⟨⟨by decide, by decide⟩, by decide,
    matcher_fifo_per_language stFifo "English" "u1" "u2" [] [] [] [evN1, evN2]
      (by decide) ⟨by decide, by decide⟩ (by decide) (by decide)⟩

/-- C4: evaluating `initializeSession` at a committed match (practice
user `u1`, native user `u2`, language English) shows that the session row
is created correctly and two `match_found` messages are built, but both
`SendMessage` calls deliver to the practice user `u1`; no message is
delivered to the native user `u2`, contradicting the claim that one of
the two notifications reaches the native side. -/
theorem initializeSession_sends_both_to_practice_user :
    initializeSession evN1 entryU1 true =
      some ({ practiceUserID := "u1", nativeUserID := "n1", language := "English" },
        [ { recipient := "u1", partnerID := "n1", language := "English" },
          { recipient := "u1", partnerID := "u1", language := "English" } ]) ∧
    (initializeSession evN1 entryU1 true).map
        (fun rs => rs.2.map MatchSend.recipient) = some ["u1", "u1"] := by
  constructor <;> rfl

/-- C9 counterexample: `SendMessage` returns the same `nil` error value
whether the user has no bound channel, the message is delivered to a live
channel, or the full-buffer path closes and evicts the channel — there is
no distinct `no_receiver` or `send_failed` result at the interface. -/
theorem SendMessage_result_not_distinct :
    wsNoClients.clients "u1" = none ∧
    (SendMessage wsNoClients "u1" "m").1 = none ∧
    (SendMessage wsOneClient "u1" "m").1 = none ∧
    ((SendMessage wsOneClient "u1" "m").2).clients "u1" =
      some { pending := ["m"], cap := 256 } ∧
    (SendMessage wsFullClient "u1" "m").1 = none ∧
    ((SendMessage wsFullClient "u1" "m").2).clients "u1" = none := by
  refine ⟨rfl, rfl, rfl, ?_, ?_, ?_⟩ <;>
    simp [SendMessage, wsOneClient, wsFullClient, updFn]

/-- C9 amended: `SendMessage` always returns the `nil` error value; when
no channel is bound for `u` it is a silent no-op, when the bound
channel's buffer has room the frame is appended to it, and when the
buffer is full the channel is closed and evicted from the registry (still
returning `nil`); other users' channels are never touched. -/
theorem SendMessage_uniform_nil_result (m : WSManager) (u : String) (msg : String) :
    (SendMessage m u msg).1 = none ∧
    (m.clients u = none → (SendMessage m u msg).2 = m) ∧
    (∀ c, m.clients u = some c → c.pending.length < c.cap →
      ((SendMessage m u msg).2).clients u =
        some { pending := c.pending ++ [msg], cap := c.cap }) ∧
    (∀ c, m.clients u = some c → ¬ c.pending.length < c.cap →
      ((SendMessage m u msg).2).clients u = none) ∧
    (∀ v, v ≠ u → ((SendMessage m u msg).2).clients v = m.clients v) := by
  cases hc : m.clients u with
  | none =>
    have h1 : SendMessage m u msg = (none, m) := by
      simp only [SendMessage, hc]
    rw [h1]
    refine ⟨rfl, fun _ => rfl, ?_, ?_, fun v _ => rfl⟩
    · intro c hcc
      cases hcc
    · intro c hcc
      cases hcc
  | some c =>
    by_cases hlen : c.pending.length < c.cap
    · have h1 : SendMessage m u msg =
          (none,
            { clients :=
                updFn m.clients u (some { pending := c.pending ++ [msg], cap := c.cap }) }) := by
        simp [SendMessage, hc, hlen]
      rw [h1]
      refine ⟨rfl, ?_, ?_, ?_, ?_⟩
      · intro hnone
        cases hnone
      · intro c' hc' _
        injection hc' with hc'
        subst hc'
        exact updFn_self _ _ _
      · intro c' hc' hlen'
        injection hc' with hc'
        subst hc'
        exact absurd hlen hlen'
      · intro v hv
        exact updFn_ne _ _ _ _ hv
    · have h1 : SendMessage m u msg = (none, { clients := updFn m.clients u none }) := by
        simp [SendMessage, hc, hlen]
      rw [h1]
      refine ⟨rfl, ?_, ?_, ?_, ?_⟩
      · intro hnone
        cases hnone
      · intro c' hc' hlen'
        injection hc' with hc'
        subst hc'
        exact absurd hlen' hlen
      · intro c' hc' _
        exact updFn_self _ _ _
      · intro v hv
        exact updFn_ne _ _ _ _ hv

/-- Closed instances of C9 amended at the three concrete managers. -/
theorem SendMessage_uniform_nil_result_witness :
    (SendMessage wsNoClients "u1" "m").2 = wsNoClients ∧
    ((SendMessage wsOneClient "u1" "m").2).clients "u1" =
      some { pending := ["m"], cap := 256 } ∧
    ((SendMessage wsFullClient "u1" "m").2).clients "u1" = none :=
  ⟨(SendMessage_uniform_nil_result wsNoClients "u1" "m").2.1 rfl,
    (SendMessage_uniform_nil_result wsOneClient "u1" "m").2.2.1
      { pending := [], cap := 256 } rfl (by decide),
    (SendMessage_uniform_nil_result wsFullClient "u1" "m").2.2.2.1
      { pending := ["x"], cap := 1 } rfl (by decide)⟩

/-- C8: a request whose native and practice languages are equal up to
case is rejected with HTTP 400 before the matchmaking service is invoked:
the state store is returned unchanged and no queue, user-data or topic
operation happens. -/
theorem StartMatchmaking_same_language_rejected (catalog : String → Option String)
    (st : RedisState) (req : StartMatchmakingRequest) (now : Nat)
    (h : eqFold req.NativeLanguage req.PracticeLanguage = true) :
    StartMatchmaking catalog st req now = (400, st, false) := by
  by_cases hm : req.UserID = "" ∨ req.NativeLanguage = "" ∨ req.PracticeLanguage = ""
  · simp [StartMatchmaking, validateStartMatchmakingRequest, hm]
  · simp [StartMatchmaking, validateStartMatchmakingRequest, hm, h]

/-- Closed instance of C8 at the literal request of the spec's scenario:
`POST /queue with u1, English, English` answers 400 and leaves the state
untouched. -/
theorem StartMatchmaking_same_language_rejected_witness :
    eqFold "English" "English" = true ∧
    StartMatchmaking catalogFix stFifo
      { UserID := "u1", NativeLanguage := "English", PracticeLanguage := "English" } 7 =
      (400, stFifo, false) :=
  ⟨by decide,
    StartMatchmaking_same_language_rejected catalogFix stFifo
      { UserID := "u1", NativeLanguage := "English", PracticeLanguage := "English" } 7
      (by decide)⟩

/-- Closed instance of C10 at a state where `u1` has no hold data. -/
theorem restoreUserFromHold_noop_idempotent_witness :
    stFifo.holdData "u1" = none ∧
    (restoreUserFromHold (restoreUserFromHold stFifo "u1" "English" true).2
        "u1" "English" true).2 =
      (restoreUserFromHold stFifo "u1" "English" true).2 :=
  ⟨by decide, (restoreUserFromHold_noop_idempotent stFifo "u1" "English" (by decide)).2.2.2.2⟩
